import Mathlib

/-!
Verification of the TemPy widget reconciliation engine (tempy/widgets.py).

The table reconciler (TempyTable.populate and friends) and the list tree
builder (TempyList / TempyListMeta) are embedded shallowly below.  The
generic tag-tree primitive (tempy.elements / tempy.tags / tempy.tools) is an
external collaborator that is not part of the reconciliation source; where
its behaviour matters it is modelled from the specification of the tree
primitive interface (node ownership as ordered child sequences, append
preserving order, removal from the parent sequence, emptiness as absence of
content, positional outer pairing of sequences).  Python None is modelled as
Option.none, Python exceptions as an explicit error component of the result,
and in-place mutation as state passing: every operation returns the tree
state as it stands when the operation returns or raises.
-/

/-- Leaf value stored in a table cell: Python None or a scalar. -/
abbrev Val := Option Nat

/-- Input grid: a finite sequence of rows of cell values. -/
abbrev Grid := List (List Val)

/-- Tag kind of a cell node: Td for ordinary cells, Th for header cells. -/
inductive CellKind : Type where
  | td : CellKind
  | th : CellKind
  deriving DecidableEq

/-- Cell node: owns a tag kind and an ordered sequence of leaf children.
Modelled from the spec: the tree primitive stores node content as an ordered
child sequence, and a node is empty exactly when it has no content. -/
structure Cell where
  kind : CellKind
  childs : List Val
  deriving DecidableEq

/-- Row node: an ordered sequence of cell nodes. -/
abbrev Row := List Cell

/-- Python exception kinds that the reconciliation code can raise.
WidgetDataError is the DataShapeError of the spec, WidgetError its
ConfigurationError; the others are unguarded builtin exceptions. -/
inductive PyError : Type where
  | widgetDataError : PyError
  | widgetError : PyError
  | typeError : PyError
  | valueError : PyError
  | indexError : PyError
  | attributeError : PyError
  deriving DecidableEq

/-- Table widget state: optional caption content, the Thead and Tfoot
containers appended to the table (each holding one synthesized row), and the
optional body.  The named header/footer attribute of the Python object is
bound to the first container of the respective list, since
_make_table_part sets the attribute only when it is absent. -/
structure TempyTable where
  caption : Option (List Val)
  headerParts : List Row
  footerParts : List Row
  body : Option (List Row)
  deriving DecidableEq

/-- Fresh table as produced before any part synthesis (self.body = None). -/
def emptyTable : TempyTable :=
  { caption := none, headerParts := [], footerParts := [], body := none }

/-- Cell synthesized by add_row: Td()(cell). -/
def newCell (v : Val) : Cell := { kind := .td, childs := [v] }

/-- Header cell synthesized by make_header: Th()(col). -/
def thCell (v : Val) : Cell := { kind := .th, childs := [v] }

/-- Row synthesized by add_row: Tr()(Td()(cell) for cell in row_data). -/
def newRow (r : List Val) : Row := r.map newCell

/-- Python max over a list of naturals: None models the ValueError raised on
an empty sequence. -/
def maxList (l : List Nat) : Option Nat :=
  match l with
  | [] => none
  | _ => some (l.foldl Nat.max 0)

/-- TempyTable._check_row_size: raises WidgetDataError when the given width
exceeds the maximum row width of the body, and the builtin ValueError when
the body has no rows at all (max of an empty sequence). -/
def check_row_size (body : List Row) (n : Nat) : Option PyError :=
  match maxList (body.map (fun r => r.length)) with
  | none => some .valueError
  | some m => if m < n then some .widgetDataError else none

/-- AdjustableList.ljust. Modelled from the spec: tempy.tools is not part of
the reconciliation source; the spec prescribes padding the input row with
absent values until it reaches the maximum cell count of this call. -/
def ljust (l : List Val) (n : Nat) : List Val :=
  l ++ List.replicate (n - l.length) none

/-- Cell-level merge of one incoming value into one existing cell: the body
of the innermost loop of TempyTable.populate.  Skips when the cell content
already equals the one-element content list [d_cell]; otherwise clears a
non-empty cell when force is set, then fills an empty cell when the incoming
value is present. -/
def mergeInto (force : Bool) (c : Cell) (dc : Val) : Cell :=
  if [dc] = c.childs then c
  else
    let c1 := if force && !c.childs.isEmpty then { c with childs := [] } else c
    if c1.childs.isEmpty && dc.isSome then { c1 with childs := c1.childs ++ [dc] } else c1

/-- Continuation of the cell loop after the existing row is exhausted: each
remaining incoming value meets no existing cell, so with resize_x a fresh Td
is appended and merged, and without resize_x the code dereferences None and
raises AttributeError. -/
def extendCells (rx force : Bool) : List Val → Row × Option PyError
  | [] => ([], none)
  | d :: ds =>
    if rx then
      match extendCells rx force ds with
      | (rest, e) => (mergeInto force { kind := .td, childs := [] } d :: rest, e)
    else ([], some .attributeError)

/-- Cell loop of TempyTable.populate: positional outer pairing of the
existing cells with the incoming values, missing incoming positions filled
with None exactly as zip_longest does. -/
def mergeCells (rx force : Bool) : Row → List Val → Row × Option PyError
  | [], ds => extendCells rx force ds
  | c :: cs, [] =>
    match mergeCells rx force cs [] with
    | (rest, e) => (mergeInto force c none :: rest, e)
  | c :: cs, d :: ds =>
    match mergeCells rx force cs ds with
    | (rest, e) => (mergeInto force c d :: rest, e)

/-- TempyTable.add_row on a body: validates the width against the body
unless resizing is allowed, then appends one Tr of Td cells. -/
def add_row (body : List Row) (row_data : List Val) (resize_x : Bool) : List Row × Option PyError :=
  if resize_x then (body ++ [newRow row_data], none)
  else
    match check_row_size body row_data.length with
    | some e => (body, some e)
    | none => (body ++ [newRow row_data], none)

/-- Row loop of populate after the existing rows are exhausted: every
remaining input row is appended through add_row with the default
resize_x=False, so its width is checked against the body built so far. -/
def appendRows (acc : List Row) : List (List Val) → List Row × Option PyError
  | [] => (acc, none)
  | d :: ds =>
    match add_row acc d false with
    | (acc2, none) => appendRows acc2 ds
    | (acc2, some e) => (acc2, some e)

/-- Row loop of populate after the input rows are exhausted: with force each
surplus existing row is removed from the body; without force the loop falls
into the merge branch with an absent input row and iterating None raises
TypeError, leaving the remaining rows in place. -/
def dropRows (force : Bool) (acc : List Row) : List Row → List Row × Option PyError
  | [] => (acc, none)
  | t :: ts =>
    if force then dropRows force acc ts
    else (acc ++ t :: ts, some .typeError)

/-- Row loop of TempyTable.populate over the outer pairing of the existing
body rows with the input rows.  Modelled from the spec: the pairing is a
full outer pairing by index of the two sequences as they stand at call time,
so with force every unmatched existing row is removed. -/
def mergeBody (rx force normalize : Bool) (mdx : Nat) (acc : List Row) :
    List Row → List (List Val) → List Row × Option PyError
  | [], ds => appendRows acc ds
  | ts, [] => dropRows force acc ts
  | t :: ts, d :: ds =>
    if d.isEmpty && force then mergeBody rx force normalize mdx acc ts ds
    else
      let d2 := if normalize then ljust d mdx else d
      match mergeCells rx force t d2 with
      | (r, none) => mergeBody rx force normalize mdx (acc ++ [r]) ts ds
      | (r, some e) => (acc ++ r :: ts, some e)

/-- TempyTable.populate.  Absent data is a no-op; a table owning no body is
filled with one fresh row per input row; otherwise the maximum input width
is computed (ValueError on an empty grid), the width guard runs unless
resize_x, and the row loop merges positionally.  The returned table is the
tree state at return or raise time. -/
def TempyTable.populate (t : TempyTable) (data : Option Grid)
    (resize_x force normalize : Bool) : TempyTable × Option PyError :=
  match data with
  | none => (t, none)
  | some d =>
    match t.body with
    | none => ({ t with body := some (d.map newRow) }, none)
    | some rows =>
      match maxList (d.map (fun r => r.length)) with
      | none => (t, some .valueError)
      | some mdx =>
        match (if resize_x then none else check_row_size rows mdx) with
        | some e => (t, some e)
        | none =>
          match mergeBody resize_x force normalize mdx [] rows d with
          | (rows2, e) => ({ t with body := some rows2 }, e)

/-- TempyTable.make_header via _make_table_part: a fresh Thead container is
always appended to the table and filled with one row of Th cells; the named
header attribute (the first container) is set only when absent. -/
def make_header (t : TempyTable) (head : List Val) : TempyTable :=
  { t with headerParts := t.headerParts ++ [head.map thCell] }

/-- TempyTable.make_footer via _make_table_part: a fresh Tfoot container is
always appended and filled with one row of Td cells. -/
def make_footer (t : TempyTable) (ft : List Val) : TempyTable :=
  { t with footerParts := t.footerParts ++ [ft.map newCell] }

/-- Named header attribute of the table: _make_table_part binds it to the
first container it ever created. -/
def headerAttr (t : TempyTable) : Option Row := t.headerParts.head?

/-- Named footer attribute of the table. -/
def footerAttr (t : TempyTable) : Option Row := t.footerParts.head?

/-- TempyTable.make_caption: creates the caption node when absent, then
empties it and fills it with the given content, so re-invocation replaces. -/
def make_caption (t : TempyTable) (c : Val) : TempyTable :=
  { t with caption := some [c] }

/-- Tail of TempyTable.__init__ after header extraction: pop the last data
row for the footer when requested (IndexError on an empty list), then
populate the body with resize_x=True and the default force and normalize. -/
def initFoot (t : TempyTable) (d : List (List Val)) (foot : Bool) : TempyTable × Option PyError :=
  if foot then
    match d.getLast? with
    | none => (t, some .indexError)
    | some lastRow => (make_footer t lastRow).populate (some d.dropLast) true true true
  else t.populate (some d) true true true

/-- Header extraction step of TempyTable.__init__: when requested, pop the
first data row (IndexError on an empty list) and synthesize the header from
it before continuing with the footer step. -/
def initHead (t : TempyTable) (d : Grid) (head foot : Bool) : TempyTable × Option PyError :=
  if head then
    match d with
    | [] => (t, some .indexError)
    | h :: rest => initFoot (make_header t h) rest foot
  else initFoot t d foot

/-- TempyTable.__init__: when the given data is absent or empty a grid of
None values of the requested size is synthesized (one extra row per enabled
header/footer); then in order the caption is made, the header consumes the
first data row, the footer consumes the last remaining data row (both
destructively removed), and the body is populated with what is left. -/
def initTable (rows cols : Nat) (data : Option Grid) (caption : Option Val)
    (head foot : Bool) : TempyTable × Option PyError :=
  let d0 : Grid :=
    match data with
    | none =>
      List.replicate (rows + ((if head then 1 else 0) + (if foot then 1 else 0)))
        (List.replicate cols none)
    | some [] =>
      List.replicate (rows + ((if head then 1 else 0) + (if foot then 1 else 0)))
        (List.replicate cols none)
    | some ds => ds
  let t1 :=
    match caption with
    | none => emptyTable
    | some c => make_caption emptyTable c
  initHead t1 d0 head foot

/-- Leaf value used as a list item key. -/
abbrev LVal := String

/-- List flavor: the closed set of list variants. Modelled from the spec:
the flavor factory resolves tokens through the tag module, which is not part
of the reconciliation source; the spec fixes the closed set to the unordered
and ordered variants. -/
inductive Flavor : Type where
  | ul : Flavor
  | ol : Flavor
  deriving DecidableEq

/-- Flavor token as accepted by TempyList: absent, a flavor-name string, or
a concrete list-variant class handle. -/
inductive TypArg : Type where
  | noneArg : TypArg
  | str : String → TypArg
  | cls : Flavor → TypArg
  deriving DecidableEq

mutual
/-- Input structure of the list builder: a scalar leaf, a flat sequence, or
a mapping.  A mapping carries the optional embedded flavor override (the
special _typ key, which TempyList.__new__ pops before iteration) next to its
ordered key/sub-structure pairs. -/
inductive LStruct : Type where
  | leaf : LVal → LStruct
  | flat : List LVal → LStruct
  | dict : Option TypArg → LItems → LStruct
  deriving DecidableEq
/-- Ordered key/sub-structure pairs of a mapping. -/
inductive LItems : Type where
  | nil : LItems
  | cons : LVal → LSub → LItems → LItems
  deriving DecidableEq
/-- Value attached to a mapping key: Python None or a nested structure. -/
inductive LSub : Type where
  | none : LSub
  | some : LStruct → LSub
  deriving DecidableEq
end

mutual
/-- Output list node: its resolved flavor and its ordered item nodes. -/
inductive LNode : Type where
  | mk : Flavor → LOut → LNode
  deriving DecidableEq
/-- Ordered items of a list node: each owns its leaf content and optionally
one nested list node appended after it. -/
inductive LOut : Type where
  | nil : LOut
  | cons : LVal → LOutSub → LOut → LOut
  deriving DecidableEq
/-- Optional nested list owned by an item. -/
inductive LOutSub : Type where
  | none : LOutSub
  | some : LNode → LOutSub
  deriving DecidableEq
end

/-- Python truthiness of a mapping value as tested by `if submenu`: None,
empty sequences and empty mappings are falsy; a mapping holding only the
_typ key is a non-empty dict and therefore truthy. -/
def truthy : LSub → Bool
  | .none => false
  | .some (.leaf v) => !(v == ("" : String))
  | .some (.flat []) => false
  | .some (.flat (_ :: _)) => true
  | .some (.dict (Option.some _) _) => true
  | .some (.dict Option.none .nil) => false
  | .some (.dict Option.none (.cons _ _ _)) => true

/-- First-occurrence deduplication of dict(zip_longest(struct, [None])):
later duplicates of a key are dropped, first-occurrence order is kept. -/
def dedupAux (seen : List LVal) : List LVal → List LVal
  | [] => []
  | k :: ks => if k ∈ seen then dedupAux seen ks else k :: dedupAux (k :: seen) ks

/-- Keys of the ordered mapping built from a flat sequence. -/
def dedupKeys (l : List LVal) : List LVal := dedupAux [] l

/-- Items produced from a flat sequence: one item per key, no nested list. -/
def flatOut : List LVal → LOut
  | [] => .nil
  | k :: ks => .cons k .none (flatOut ks)

/-- Flavor resolution of TempyList.__new__ after the override pop: a string
token is looked up among the known list variants and an unknown one raises
WidgetError; an absent token defaults to the unordered variant. -/
def resolveFlavor : TypArg → Except PyError Flavor
  | .noneArg => .ok .ul
  | .cls f => .ok f
  | .str s =>
    if s = ("Ul" : String) then .ok .ul
    else if s = ("Ol" : String) then .ok .ol
    else .error .widgetError

/-- Embedded flavor override of a structure: the _typ key of a top-level
mapping, absent otherwise. -/
def embeddedTyp : LSub → Option TypArg
  | .some (.dict t _) => t
  | _ => none

/-- Flavor token used for a nested build: TempyListMeta.populate passes the
parent class as the caller token, and TempyList.__new__ then pops the
embedded _typ override of the sub-structure, which wins when present. -/
def subTyp (fl : Flavor) (s : LSub) : TypArg :=
  match embeddedTyp s with
  | Option.some tok => tok
  | Option.none => .cls fl

mutual
/-- TempyListMeta.populate on an already resolved flavor: an absent
structure is a no-op yielding an empty list node, a flat sequence is first
turned into an ordered mapping of key to None (collapsing duplicates), a
scalar raises WidgetDataError, and a mapping is walked by the item loop. -/
def buildResolved (fl : Flavor) (struct : LSub) : Except PyError LNode :=
  match struct with
  | .none => .ok (.mk fl .nil)
  | .some (.leaf _) => .error .widgetDataError
  | .some (.flat l) => .ok (.mk fl (flatOut (dedupKeys l)))
  | .some (.dict _ items) =>
    match popItems fl items with
    | .error e => .error e
    | .ok out => .ok (.mk fl out)

/-- Item loop of TempyListMeta.populate: for each key/sub pair, append an
item holding the key; when the sub-structure is truthy, recursively build a
nested TempyList with the parent class as the caller token (its embedded
override winning, its unknown string tokens failing fast) and append the
nested list to the item. -/
def popItems (fl : Flavor) : LItems → Except PyError LOut
  | .nil => .ok .nil
  | .cons k sub rest =>
    if truthy sub then
      match resolveFlavor (subTyp fl sub) with
      | .error e => .error e
      | .ok fl2 =>
        match buildResolved fl2 sub with
        | .error e => .error e
        | .ok nd =>
          match popItems fl rest with
          | .error e => .error e
          | .ok out => .ok (.cons k (.some nd) out)
    else
      match popItems fl rest with
      | .error e => .error e
      | .ok out => .ok (.cons k .none out)
end

/-- TempyList construction: TempyList.__new__ pops the embedded _typ
override of the structure (which wins over the caller token), resolves the
flavor, failing fast with WidgetError on an unknown string before any node
is built, then TempyListMeta.populate generates the items. -/
def buildTempyList (typ : TypArg) (struct : LSub) : Except PyError LNode :=
  match resolveFlavor
      (match embeddedTyp struct with
       | Option.some tok => tok
       | Option.none => typ) with
  | .error e => .error e
  | .ok fl => buildResolved fl struct

/-! Helper lemmas about folded maxima, padding and deduplication. -/

theorem le_foldl_max (l : List Nat) (a : Nat) : a ≤ l.foldl Nat.max a := by
  induction l generalizing a with
  | nil => simp
  | cons x xs ih =>
    simp only [List.foldl_cons]
    exact le_trans (Nat.le_max_left a x) (ih (Nat.max a x))

theorem mem_le_foldl_max (l : List Nat) (a x : Nat) (hx : x ∈ l) : x ≤ l.foldl Nat.max a := by
  induction l generalizing a with
  | nil => cases hx
  | cons y ys ih =>
    simp only [List.foldl_cons]
    rcases List.mem_cons.mp hx with h | h
    · subst h
      exact le_trans (Nat.le_max_right a x) (le_foldl_max ys _)
    · exact ih _ h

theorem foldl_max_le (l : List Nat) (a w : Nat) (ha : a ≤ w) (h : ∀ x ∈ l, x ≤ w) :
    l.foldl Nat.max a ≤ w := by
  induction l generalizing a with
  | nil => simpa using ha
  | cons y ys ih =>
    simp only [List.foldl_cons]
    exact ih _ (Nat.max_le.mpr ⟨ha, h y (by simp)⟩) (fun x hx => h x (by simp [hx]))

theorem maxList_all_eq (l : List Nat) (w : Nat) (hne : l ≠ []) (h : ∀ x ∈ l, x = w) :
    maxList l = some w := by
  cases l with
  | nil => exact absurd rfl hne
  | cons x xs =>
    have h1 : (x :: xs).foldl Nat.max 0 ≤ w :=
      foldl_max_le _ _ _ (Nat.zero_le w) (fun y hy => le_of_eq (h y hy))
    have h2 : w ≤ (x :: xs).foldl Nat.max 0 := by
      have hx : x = w := h x (by simp)
      subst hx
      exact mem_le_foldl_max _ _ _ (by simp)
    simp only [maxList]
    exact congrArg some (Nat.le_antisymm h1 h2)

theorem check_row_size_of_wide (rows : List Row) (w n : Nat)
    (hmax : maxList (rows.map (fun r => r.length)) = some w) (hn : w < n) :
    check_row_size rows n = some .widgetDataError := by
  simp [check_row_size, hmax, hn]

theorem check_row_size_of_le (rows : List Row) (w : Nat)
    (hne : rows ≠ []) (hall : ∀ r ∈ rows, w ≤ r.length) :
    check_row_size rows w = none := by
  cases rows with
  | nil => exact absurd rfl hne
  | cons r rest =>
    have hge : w ≤ List.foldl Nat.max (Nat.max 0 r.length) (rest.map (fun x => x.length)) :=
      le_trans (hall r (by simp))
        (le_trans (Nat.le_max_right 0 _) (le_foldl_max _ _))
    simp only [check_row_size, maxList, List.map_cons, List.foldl_cons]
    rw [if_neg (Nat.not_lt.mpr hge)]

theorem ljust_self (l : List Val) : ljust l l.length = l := by
  simp [ljust]

theorem newRow_length (r : List Val) : (newRow r).length = r.length := by
  simp [newRow]

theorem mem_dedupAux (l : List LVal) (seen : List LVal) (x : LVal) :
    x ∈ dedupAux seen l ↔ x ∈ l ∧ x ∉ seen := by
  induction l generalizing seen with
  | nil => simp [dedupAux]
  | cons k ks ih =>
    simp only [dedupAux]
    by_cases hk : k ∈ seen
    · simp only [hk, if_true, ih, List.mem_cons]
      constructor
      · rintro ⟨h1, h2⟩
        exact ⟨Or.inr h1, h2⟩
      · rintro ⟨h1, h2⟩
        rcases h1 with h1 | h1
        · subst h1
          exact absurd hk h2
        · exact ⟨h1, h2⟩
    · simp only [hk, if_false, List.mem_cons, ih]
      by_cases hx : x = k
      · subst hx
        simp [hk]
      · simp [hx]

theorem nodup_dedupAux (l : List LVal) (seen : List LVal) : (dedupAux seen l).Nodup := by
  induction l generalizing seen with
  | nil => simp [dedupAux]
  | cons k ks ih =>
    simp only [dedupAux]
    by_cases hk : k ∈ seen
    · simp only [hk, if_true]
      exact ih seen
    · simp only [hk, if_false, List.nodup_cons]
      refine ⟨fun hc => ?_, ih (k :: seen)⟩
      have := (mem_dedupAux ks (k :: seen) k).mp hc
      exact this.2 (by simp)

/-! Claim theorems. -/

/-- Claim C2: with resize_x disabled, reconciling a table whose body has
maximum row width w against a grid containing a row strictly wider than w
raises WidgetDataError (the DataShapeError of the spec) and returns the
table completely unmodified, for every force/normalize option. -/
theorem populate_width_guard (t : TempyTable) (rows : List Row) (G : Grid)
    (r : List Val) (w : Nat) (force normalize : Bool)
    (hb : t.body = some rows)
    (hmax : maxList (rows.map (fun x => x.length)) = some w)
    (hr : r ∈ G) (hwide : w < r.length) :
    t.populate (some G) false force normalize = (t, some .widgetDataError) := by
  obtain ⟨g, gs, rfl⟩ : ∃ g gs, G = g :: gs := by
    cases G with
    | nil => cases hr
    | cons a as => exact ⟨a, as, rfl⟩
  have hmem : r.length ∈ ((g :: gs).map (fun x => x.length)) :=
    List.mem_map_of_mem _ hr
  have hmdx : r.length ≤ ((g :: gs).map (fun x => x.length)).foldl Nat.max 0 :=
    mem_le_foldl_max _ _ _ hmem
  have hlt : w < ((g :: gs).map (fun x => x.length)).foldl Nat.max 0 :=
    lt_of_lt_of_le hwide hmdx
  have hcheck : check_row_size rows (((g :: gs).map (fun x => x.length)).foldl Nat.max 0)
      = some PyError.widgetDataError := check_row_size_of_wide rows w _ hmax hlt
  simp at hcheck
  simp [TempyTable.populate, hb, maxList, hcheck]

/-- Claim C2 witness: a one-column table against a two-column row. -/
theorem populate_width_guard_witness :
    TempyTable.populate
        { caption := none, headerParts := [], footerParts := [],
          body := some [[newCell (some 1)]] }
        (some [[some 1, some 2]]) false true true
      = ({ caption := none, headerParts := [], footerParts := [],
           body := some [[newCell (some 1)]] }, some .widgetDataError) :=
  populate_width_guard _ [[newCell (some 1)]] [[some 1, some 2]] [some 1, some 2] 1
    true true rfl (by decide) (by decide) (by decide)

/-- Claim C3, code evaluation at the failing input: a table with two body
rows reconciled against a one-row grid with force disabled does not leave
the surplus row untouched and return normally; the row loop reaches the
merge branch with an absent input row and raises TypeError (iterating
None), the body rows themselves still unchanged at raise time. -/
theorem populate_shorter_grid_noforce_raises :
    TempyTable.populate
        { caption := none, headerParts := [], footerParts := [],
          body := some [[newCell (some 1)], [newCell (some 2)]] }
        (some [[some 1]]) false false true
      = ({ caption := none, headerParts := [], footerParts := [],
           body := some [[newCell (some 1)], [newCell (some 2)]] }, some .typeError) := by
  decide

/-- Claim C4: constructing a table from a grid of at least two rows with
head and foot enabled builds the caption first, then the header from the
first grid row (as Th cells), then the footer from the last grid row (as Td
cells) — both rows destructively removed — and finally populates the body
with exactly the remaining middle rows in order. -/
theorem init_head_foot_extraction (rows cols : Nat) (cap : Option Val)
    (g0 gl : List Val) (mid : Grid) :
    initTable rows cols (some (g0 :: (mid ++ [gl]))) cap true true
      = ({ caption := cap.map (fun c => [c]),
           headerParts := [g0.map thCell],
           footerParts := [gl.map newCell],
           body := some (mid.map newRow) }, none) := by
  cases cap <;>
    simp [initTable, initHead, initFoot, make_caption, make_header, make_footer, emptyTable,
      TempyTable.populate, List.getLast?_concat, List.dropLast_concat]

/-- Claim C5: reconciling a grid into a table that owns no body creates one
fresh row per grid row (whatever the options), with one cell per value; for
a grid of r rows of c values the body has exactly r rows of c cells each,
and the leaf content of the cell at (i, j) is exactly the grid value at
(i, j). -/
theorem populate_empty_body_growth (t : TempyTable) (G : Grid) (c : Nat)
    (rx force normalize : Bool)
    (hb : t.body = none) (hrect : ∀ r ∈ G, r.length = c) :
    t.populate (some G) rx force normalize = ({ t with body := some (G.map newRow) }, none)
    ∧ (G.map newRow).length = G.length
    ∧ (∀ r ∈ G.map newRow, r.length = c)
    ∧ ∀ i j, i < G.length → j < (G.getD i []).length →
        (((G.map newRow).getD i []).getD j (newCell none)).childs
          = [(G.getD i []).getD j none] := by
  refine ⟨by simp [TempyTable.populate, hb], by simp, ?_, ?_⟩
  · intro r hr
    obtain ⟨g, hg, rfl⟩ := List.mem_map.mp hr
    simp [newRow, hrect g hg]
  · intro i j hi hj
    have hget : G.getD i [] = G.get ⟨i, hi⟩ := by
      rw [List.getD_eq_getElem?_getD, List.getElem?_eq_getElem hi]
      rfl
    have hmapget : (G.map newRow).getD i [] = newRow (G.get ⟨i, hi⟩) := by
      have hi2 : i < (G.map newRow).length := by simpa using hi
      rw [List.getD_eq_getElem?_getD, List.getElem?_eq_getElem hi2]
      simp
    rw [hget] at hj
    rw [hget, hmapget, List.getD_eq_getElem?_getD, List.getD_eq_getElem?_getD]
    have hj2 : j < (newRow (G.get ⟨i, hi⟩)).length := by simpa [newRow] using hj
    rw [List.getElem?_eq_getElem hj, List.getElem?_eq_getElem hj2]
    simp [newRow, newCell]

/-- Claim C5 witness at a 1 by 2 grid. -/
theorem populate_empty_body_growth_witness :
    emptyTable.populate (some [[some 1, some 2]]) true true true
      = ({ emptyTable with body := some ([[some 1, some 2]].map newRow) }, none) :=
  (populate_empty_body_growth emptyTable [[some 1, some 2]] 2 true true true rfl
    (by decide)).1

/-- Claim C8 counterexample: invoking header synthesis twice leaves the
table owning two header containers, not at most one. -/
theorem make_header_twice_two_containers :
    ¬ ((make_header (make_header emptyTable [some 1]) [some 2]).headerParts.length ≤ 1) := by
  decide

/-- Claim C8 amended: each header/footer synthesis invocation appends one
more container as a child of the table (so after n invocations the table
owns n containers, possibly more than one), and the named header/footer
slot stays bound to the first container ever created, being set only when
absent. -/
theorem make_part_append_semantics (t : TempyTable) (h ft : List Val) :
    (make_header t h).headerParts.length = t.headerParts.length + 1
    ∧ (make_footer t ft).footerParts.length = t.footerParts.length + 1
    ∧ headerAttr (make_header t h) = some (t.headerParts.headD (h.map thCell))
    ∧ footerAttr (make_footer t ft) = some (t.footerParts.headD (ft.map newCell)) := by
  refine ⟨by simp [make_header], by simp [make_footer], ?_, ?_⟩
  · cases hp : t.headerParts with
    | nil => simp [headerAttr, make_header, hp]
    | cons a as => simp [headerAttr, make_header, hp]
  · cases fp : t.footerParts with
    | nil => simp [footerAttr, make_footer, fp]
    | cons a as => simp [footerAttr, make_footer, fp]

/-- Claim C10: reconciling a table that already owns a non-empty body with a
present but empty grid is not a no-op and raises no WidgetDataError: taking
the maximum row length of the empty input raises the builtin ValueError,
for every option combination, before any mutation. -/
theorem populate_empty_grid_value_error (t : TempyTable) (rows : List Row)
    (rx force normalize : Bool)
    (hb : t.body = some rows) (_hne : rows ≠ []) :
    t.populate (some []) rx force normalize = (t, some .valueError) := by
  simp [TempyTable.populate, hb, maxList]

/-- Claim C10 witness. -/
theorem populate_empty_grid_value_error_witness :
    TempyTable.populate
        { caption := none, headerParts := [], footerParts := [],
          body := some [[newCell (some 1)]] }
        (some []) true true true
      = ({ caption := none, headerParts := [], footerParts := [],
           body := some [[newCell (some 1)]] }, some .valueError) :=
  populate_empty_grid_value_error _ [[newCell (some 1)]] true true true rfl (by decide)

/-- Claim C6: building a list from the mapping of "a" to None and "b" to the
nested sequence of "x","y" yields exactly two items "a","b" in order, where
item "b" additionally owns one nested list of two items "x","y"; the nested
list inherits the parent flavor, unless the sub-structure embeds a _typ
override, which then wins over the inherited flavor. -/
theorem nested_list_flavor_inheritance (f g : Flavor) :
    buildTempyList (.cls f)
        (.some (.dict Option.none (.cons ("a") .none
          (.cons ("b") (.some (.flat [("x"), ("y")])) .nil))))
      = .ok (.mk f (.cons ("a") .none
          (.cons ("b") (.some (.mk f (.cons ("x") .none (.cons ("y") .none .nil)))) .nil)))
    ∧ buildTempyList (.cls f)
        (.some (.dict Option.none (.cons ("a") .none
          (.cons ("b") (.some (.dict (Option.some (.cls g))
            (.cons ("x") .none (.cons ("y") .none .nil)))) .nil))))
      = .ok (.mk f (.cons ("a") .none
          (.cons ("b") (.some (.mk g (.cons ("x") .none (.cons ("y") .none .nil)))) .nil))) :=
  ⟨rfl, rfl⟩

/-- Claim C7 counterexample: an unknown flavor string does not raise when
the structure embeds a _typ override, because TempyList.__new__ pops the
override first and it silently replaces the bad token: the build succeeds. -/
theorem flavor_token_ignored_with_override :
    buildTempyList (.str ("NotARealFlavor"))
        (.some (.dict (Option.some (.str ("Ol"))) .nil))
      = .ok (.mk .ol .nil) := rfl

/-- Claim C7 amended: for every structure that does not embed a top-level
_typ override, building with a flavor string token that names no known list
variant fails with WidgetError (the ConfigurationError of the spec) before
any node is created; and for every structure that does embed a top-level
_typ override, the caller token is ignored entirely: building with any two
caller tokens yields identical results, resolution applying to the popped
override instead. -/
theorem flavor_reject_no_override (s : String) (struct : LSub)
    (typA typB tok : TypArg) (struct2 : LSub)
    (h1 : s ≠ ("Ul" : String)) (h2 : s ≠ ("Ol" : String))
    (h3 : embeddedTyp struct = none) (h4 : embeddedTyp struct2 = some tok) :
    buildTempyList (.str s) struct = .error .widgetError
    ∧ buildTempyList typA struct2 = buildTempyList typB struct2 := by
  have hres : resolveFlavor (.str s) = .error .widgetError := by
    simp [resolveFlavor, h1, h2]
  constructor
  · cases struct with
    | none => simp [buildTempyList, embeddedTyp, hres]
    | some st =>
      cases st with
      | leaf v => simp [buildTempyList, embeddedTyp, hres]
      | flat l => simp [buildTempyList, embeddedTyp, hres]
      | dict tok2 items =>
        cases tok2 with
        | none => simp [buildTempyList, embeddedTyp, hres]
        | some tk => simp [embeddedTyp] at h3
  · cases struct2 with
    | none => simp [embeddedTyp] at h4
    | some st =>
      cases st with
      | leaf v => simp [embeddedTyp] at h4
      | flat l => simp [embeddedTyp] at h4
      | dict tok2 items =>
        simp only [embeddedTyp] at h4
        subst h4
        simp [buildTempyList, embeddedTyp]

/-- Claim C7 witness at the token NotARealFlavor: rejection against an
absent structure, and token irrelevance against a structure embedding the
Ol override. -/
theorem flavor_reject_no_override_witness :
    buildTempyList (.str ("NotARealFlavor")) .none = .error .widgetError
    ∧ buildTempyList (.str ("NotARealFlavor"))
          (.some (.dict (Option.some (.str ("Ol"))) .nil))
        = buildTempyList (.cls .ul)
          (.some (.dict (Option.some (.str ("Ol"))) .nil)) :=
  flavor_reject_no_override ("NotARealFlavor") .none
    (.str ("NotARealFlavor")) (.cls .ul) (.str ("Ol"))
    (.some (.dict (Option.some (.str ("Ol"))) .nil))
    (by decide) (by decide) rfl rfl

/-- Claim C9: building a list from a flat sequence first converts it to a
mapping, so duplicate elements collapse: the items are exactly one per
distinct element in first-occurrence order (their key set equals the set of
sequence elements, without duplicates), and in particular the sequence
"a","a","b" yields two items "a","b", not three. -/
theorem flat_list_dedup (f : Flavor) (l : List LVal) :
    buildTempyList (.cls f) (.some (.flat l)) = .ok (.mk f (flatOut (dedupKeys l)))
    ∧ (dedupKeys l).Nodup
    ∧ (∀ x, x ∈ dedupKeys l ↔ x ∈ l)
    ∧ buildTempyList (.cls f) (.some (.flat [("a"), ("a"), ("b")]))
        = .ok (.mk f (.cons ("a") .none (.cons ("b") .none .nil))) := by
  refine ⟨rfl, nodup_dedupAux l [], ?_, rfl⟩
  intro x
  rw [dedupKeys, mem_dedupAux]
  simp

/-! Lemmas for the idempotence of the table merge path. -/

theorem max_succ_succ (m n : Nat) : Nat.max (m + 1) (n + 1) = Nat.max m n + 1 := by
  simp only [Nat.max_def]
  split_ifs <;> omega

theorem mergeInto_fix (f : Bool) (c : Cell) (d : Val) :
    mergeInto f (mergeInto f c d) d = mergeInto f c d := by
  obtain ⟨k, ch⟩ := c
  by_cases h : [d] = ch
  · simp [mergeInto, h]
  · cases f with
    | true =>
      cases ch with
      | nil =>
        cases d with
        | none =>
          have h1 : mergeInto true { kind := k, childs := [] } none
              = { kind := k, childs := [] } := by simp [mergeInto, h]
          rw [h1, h1]
        | some v =>
          have h1 : mergeInto true { kind := k, childs := [] } (some v)
              = { kind := k, childs := [some v] } := by simp [mergeInto, h]
          rw [h1]
          simp [mergeInto]
      | cons x xs =>
        cases d with
        | none =>
          have h1 : mergeInto true { kind := k, childs := x :: xs } none
              = { kind := k, childs := [] } := by simp [mergeInto, h]
          have h2 : mergeInto true { kind := k, childs := [] } none
              = { kind := k, childs := [] } := by simp [mergeInto]
          rw [h1, h2]
        | some v =>
          have h1 : mergeInto true { kind := k, childs := x :: xs } (some v)
              = { kind := k, childs := [some v] } := by simp [mergeInto, h]
          rw [h1]
          simp [mergeInto]
    | false =>
      cases ch with
      | nil =>
        cases d with
        | none =>
          have h1 : mergeInto false { kind := k, childs := [] } none
              = { kind := k, childs := [] } := by simp [mergeInto, h]
          rw [h1, h1]
        | some v =>
          have h1 : mergeInto false { kind := k, childs := [] } (some v)
              = { kind := k, childs := [some v] } := by simp [mergeInto, h]
          rw [h1]
          simp [mergeInto]
      | cons x xs =>
        have h1 : mergeInto false { kind := k, childs := x :: xs } d
            = { kind := k, childs := x :: xs } := by simp [mergeInto, h]
        rw [h1, h1]

theorem extendCells_fix (rx f : Bool) (ds : List Val) (r : Row)
    (h : extendCells rx f ds = (r, none)) :
    mergeCells rx f r ds = (r, none) := by
  induction ds generalizing r with
  | nil =>
    simp only [extendCells, Prod.mk.injEq] at h
    rw [← h.1]
    simp [mergeCells, extendCells]
  | cons d ds ih =>
    cases rx with
    | false => simp [extendCells] at h
    | true =>
      rw [extendCells] at h
      rcases he : extendCells true f ds with ⟨rest, e⟩
      rw [he] at h
      simp only [if_true, Prod.mk.injEq] at h
      obtain ⟨h1, h2⟩ := h
      subst h2
      rw [← h1, mergeCells, ih rest he, mergeInto_fix]

theorem mergeCells_fix (rx f : Bool) (tr : Row) (ds : List Val) (r : Row)
    (h : mergeCells rx f tr ds = (r, none)) :
    mergeCells rx f r ds = (r, none) := by
  induction tr generalizing ds r with
  | nil => exact extendCells_fix rx f ds r (by simpa [mergeCells] using h)
  | cons c cs ih =>
    cases ds with
    | nil =>
      rw [mergeCells] at h
      rcases he : mergeCells rx f cs [] with ⟨rest, e⟩
      rw [he] at h
      simp only [Prod.mk.injEq] at h
      obtain ⟨h1, h2⟩ := h
      subst h2
      rw [← h1, mergeCells, ih [] rest he, mergeInto_fix]
    | cons d ds2 =>
      rw [mergeCells] at h
      rcases he : mergeCells rx f cs ds2 with ⟨rest, e⟩
      rw [he] at h
      simp only [Prod.mk.injEq] at h
      obtain ⟨h1, h2⟩ := h
      subst h2
      rw [← h1, mergeCells, ih ds2 rest he, mergeInto_fix]

theorem mergeCells_newRow (rx f : Bool) (d : List Val) :
    mergeCells rx f (newRow d) d = (newRow d, none) := by
  induction d with
  | nil => simp [newRow, mergeCells, extendCells]
  | cons v vs ih =>
    simp only [newRow, List.map_cons] at ih ⊢
    rw [mergeCells, ih]
    simp [mergeInto, newCell]

theorem extendCells_len (rx f : Bool) (ds : List Val) (r : Row)
    (h : extendCells rx f ds = (r, none)) : r.length = ds.length := by
  induction ds generalizing r with
  | nil =>
    simp only [extendCells, Prod.mk.injEq] at h
    rw [← h.1]
    rfl
  | cons d ds ih =>
    cases rx with
    | false => simp [extendCells] at h
    | true =>
      rw [extendCells] at h
      rcases he : extendCells true f ds with ⟨rest, e⟩
      rw [he] at h
      simp only [if_true, Prod.mk.injEq] at h
      obtain ⟨h1, h2⟩ := h
      subst h2
      rw [← h1]
      simp [ih rest he]

theorem mergeCells_len (rx f : Bool) (tr : Row) (ds : List Val) (r : Row)
    (h : mergeCells rx f tr ds = (r, none)) :
    r.length = Nat.max tr.length ds.length := by
  induction tr generalizing ds r with
  | nil =>
    have := extendCells_len rx f ds r (by simpa [mergeCells] using h)
    simpa [Nat.zero_max] using this
  | cons c cs ih =>
    cases ds with
    | nil =>
      rw [mergeCells] at h
      rcases he : mergeCells rx f cs [] with ⟨rest, e⟩
      rw [he] at h
      simp only [Prod.mk.injEq] at h
      obtain ⟨h1, h2⟩ := h
      subst h2
      rw [← h1]
      have := ih [] rest he
      simp only [List.length_cons, List.length_nil, Nat.max_zero] at this ⊢
      omega
    | cons d ds2 =>
      rw [mergeCells] at h
      rcases he : mergeCells rx f cs ds2 with ⟨rest, e⟩
      rw [he] at h
      simp only [Prod.mk.injEq] at h
      obtain ⟨h1, h2⟩ := h
      subst h2
      rw [← h1]
      have := ih ds2 rest he
      simp only [List.length_cons, max_succ_succ]
      omega

theorem pad_eq (nz : Bool) (g : List Val) (w : Nat) (h : g.length = w) :
    (if nz then ljust g w else g) = g := by
  cases nz with
  | false => rfl
  | true =>
    simp only [if_true]
    rw [← h, ljust_self]

theorem pad_len (nz : Bool) (g : List Val) (w : Nat) (h : g.length = w) :
    (if nz then ljust g w else g).length = w := by
  cases nz with
  | false => simpa using h
  | true => simp [ljust, h]

theorem add_row_false (body : List Row) (rd : List Val) :
    add_row body rd false
      = match check_row_size body rd.length with
        | some e => (body, some e)
        | none => (body ++ [newRow rd], none) := by
  simp [add_row]

theorem dropRows_none (f : Bool) (acc res : List Row) (ts : List Row)
    (h : dropRows f acc ts = (res, none)) : res = acc := by
  induction ts with
  | nil =>
    simp only [dropRows, Prod.mk.injEq] at h
    exact h.1.symm
  | cons t ts ih =>
    cases f with
    | true =>
      rw [dropRows] at h
      simp only [if_true] at h
      exact ih h
    | false =>
      rw [dropRows] at h
      simp at h

theorem appendRows_sound (rx f nz : Bool) (w : Nat) (ds : List (List Val)) :
    ∀ acc res, (∀ g ∈ ds, g.length = w) → appendRows acc ds = (res, none) →
      ∃ out, res = acc ++ out
        ∧ List.Forall₂ (fun r g => mergeCells rx f r (if nz then ljust g w else g) = (r, none)) out ds
        ∧ ∀ r ∈ out, w ≤ r.length := by
  induction ds with
  | nil =>
    intro acc res _ h
    simp only [appendRows, Prod.mk.injEq] at h
    exact ⟨[], by simp [← h.1], List.Forall₂.nil, by simp⟩
  | cons d ds ih =>
    intro acc res hws h
    rw [appendRows, add_row_false] at h
    cases hch : check_row_size acc d.length with
    | some e =>
      simp only [hch] at h
      simp at h
    | none =>
      simp only [hch] at h
      obtain ⟨out2, hres, hfa, hlen⟩ :=
        ih (acc ++ [newRow d]) res (fun g hg => hws g (List.mem_cons_of_mem _ hg)) h
      have hd : d.length = w := hws d (List.mem_cons_self _ _)
      refine ⟨newRow d :: out2, by simp [hres], List.Forall₂.cons ?_ hfa, ?_⟩
      · rw [pad_eq nz d w hd]
        exact mergeCells_newRow rx f d
      · intro r hr
        rcases List.mem_cons.mp hr with h1 | h1
        · subst h1
          simp [newRow, hd]
        · exact hlen r h1

theorem mergeBody_sound (rx f nz : Bool) (w : Nat) (hw : 0 < w) (tr : List Row) :
    ∀ G acc res, (∀ g ∈ G, g.length = w) → mergeBody rx f nz w acc tr G = (res, none) →
      ∃ out, res = acc ++ out
        ∧ List.Forall₂ (fun r g => mergeCells rx f r (if nz then ljust g w else g) = (r, none)) out G
        ∧ ∀ r ∈ out, w ≤ r.length := by
  induction tr with
  | nil =>
    intro G acc res hws h
    exact appendRows_sound rx f nz w G acc res hws (by simpa [mergeBody] using h)
  | cons t ts ih =>
    intro G acc res hws h
    cases G with
    | nil =>
      have hres := dropRows_none f acc res (t :: ts) (by simpa [mergeBody] using h)
      exact ⟨[], by simp [hres], List.Forall₂.nil, by simp⟩
    | cons g gs =>
      rw [mergeBody] at h
      have hgw : g.length = w := hws g (List.mem_cons_self _ _)
      have hgE : g.isEmpty = false := by
        cases g with
        | nil =>
          simp at hgw
          omega
        | cons a as => rfl
      simp only [hgE, Bool.false_and, Bool.false_eq_true, if_false] at h
      rcases hmc : mergeCells rx f t (if nz then ljust g w else g) with ⟨r1, e1⟩
      cases e1 with
      | some e =>
        simp only [hmc] at h
        simp at h
      | none =>
        simp only [hmc] at h
        obtain ⟨out2, hres, hfa, hlen⟩ :=
          ih gs (acc ++ [r1]) res (fun g2 hg2 => hws g2 (List.mem_cons_of_mem _ hg2)) h
        refine ⟨r1 :: out2, by simp [hres],
          List.Forall₂.cons (mergeCells_fix _ _ _ _ _ hmc) hfa, ?_⟩
        intro r hr
        rcases List.mem_cons.mp hr with h1 | h1
        · have hl := mergeCells_len rx f t _ r1 hmc
          rw [pad_len nz g w hgw] at hl
          rw [h1, hl]
          exact Nat.le_max_right _ _
        · exact hlen r h1

theorem mergeBody_fixed (rx f nz : Bool) (w : Nat) (rs : List Row) (G : Grid)
    (hfa : List.Forall₂
      (fun r g => mergeCells rx f r (if nz then ljust g w else g) = (r, none)) rs G) :
    (∀ g ∈ G, g ≠ []) → ∀ acc, mergeBody rx f nz w acc rs G = (acc ++ rs, none) := by
  induction hfa with
  | nil =>
    intro _ acc
    simp [mergeBody, appendRows]
  | @cons r g rs2 gs2 hfix htail ih =>
    intro hne acc
    rw [mergeBody]
    have hgE : g.isEmpty = false := by
      cases g with
      | nil => exact absurd rfl (hne [] (List.mem_cons_self _ _))
      | cons a as => rfl
    simp only [hgE, Bool.false_and, Bool.false_eq_true, if_false, hfix]
    rw [ih (fun g2 hg2 => hne g2 (List.mem_cons_of_mem _ hg2)) (acc ++ [r])]
    simp

theorem forall2_newRow (rx f nz : Bool) (w : Nat) (G : Grid)
    (hws : ∀ g ∈ G, g.length = w) :
    List.Forall₂
      (fun r g => mergeCells rx f r (if nz then ljust g w else g) = (r, none))
      (G.map newRow) G := by
  induction G with
  | nil => exact List.Forall₂.nil
  | cons g gs ih =>
    simp only [List.map_cons]
    refine List.Forall₂.cons ?_ (ih (fun x hx => hws x (List.mem_cons_of_mem _ hx)))
    rw [pad_eq nz g w (hws g (List.mem_cons_self _ _))]
    exact mergeCells_newRow rx f g

theorem set_body_self (t : TempyTable) (rows : List Row) (h : t.body = some rows) :
    { t with body := some rows } = t := by
  cases t with
  | mk c hp fp b =>
    simp at h
    simp [h]

/-- Claim C1 counterexample: table reconciliation is not idempotent for
every table, grid and options.  For the fresh table and the ragged grid
[[1], [2, 3]] with resize_x, force and normalize all set, the second call
pads the first input row to the maximum width, meets no existing cell at
the padded position and appends a fresh empty cell, so reconciling twice
differs from reconciling once. -/
theorem populate_not_idempotent_ragged :
    ((emptyTable.populate (some [[some 1], [some 2, some 3]]) true true true).1.populate
        (some [[some 1], [some 2, some 3]]) true true true)
      ≠ emptyTable.populate (some [[some 1], [some 2, some 3]]) true true true := by
  decide

/-- Claim C1 amended: table reconciliation is idempotent for every table and
options provided the grid is a non-empty rectangle with at least one column:
when the first reconciliation succeeds, reconciling its result again with
the same grid and options succeeds and returns the very same table - the
second call performs zero node mutations.  (Without the restriction the
claim fails: ragged grids grow padding cells on the second call, and empty
or zero-width grids can make the second call raise after a successful
first call.) -/
theorem populate_idempotent_rect (t t2 : TempyTable) (G : Grid) (w : Nat)
    (rx f nz : Bool)
    (hw : 0 < w) (hrect : ∀ r ∈ G, r.length = w) (hne : G ≠ [])
    (h : t.populate (some G) rx f nz = (t2, none)) :
    t2.populate (some G) rx f nz = (t2, none) := by
  have hmax : maxList (G.map (fun r => r.length)) = some w := by
    apply maxList_all_eq
    · simpa using hne
    · intro x hx
      obtain ⟨g, hg, rfl⟩ := List.mem_map.mp hx
      exact hrect g hg
  have hgne : ∀ g ∈ G, g ≠ [] := by
    intro g hg hc
    subst hc
    have := hrect [] hg
    simp at this
    omega
  cases hb : t.body with
  | none =>
    simp only [TempyTable.populate, hb] at h
    have ht2 : t2 = { t with body := some (G.map newRow) } := by
      simp only [Prod.mk.injEq] at h
      exact h.1.symm
    subst ht2
    have hck : (if rx then none else check_row_size (G.map newRow) w)
        = (none : Option PyError) := by
      cases rx with
      | true => simp
      | false =>
        simp only [Bool.false_eq_true, if_false]
        refine check_row_size_of_le (G.map newRow) w (by simpa using hne) ?_
        intro r hr
        obtain ⟨g, hg, rfl⟩ := List.mem_map.mp hr
        simp [newRow, hrect g hg]
    simp only [TempyTable.populate, hmax, hck]
    rw [mergeBody_fixed rx f nz w (G.map newRow) G
      (forall2_newRow rx f nz w G hrect) hgne []]
    simp
  | some rows =>
    simp only [TempyTable.populate, hb, hmax] at h
    cases hck : (if rx then none else check_row_size rows w) with
    | some e =>
      simp only [hck] at h
      simp at h
    | none =>
      simp only [hck] at h
      rcases hmb : mergeBody rx f nz w [] rows G with ⟨rows2, e1⟩
      cases e1 with
      | some e =>
        simp only [hmb] at h
        simp at h
      | none =>
        simp only [hmb] at h
        have ht2 : t2 = { t with body := some rows2 } := by
          simp only [Prod.mk.injEq] at h
          exact h.1.symm
        subst ht2
        obtain ⟨out, hout, hfa, hlen⟩ :=
          mergeBody_sound rx f nz w hw rows G [] rows2 hrect hmb
        simp only [List.nil_append] at hout
        subst hout
        have hne2 : rows2 ≠ [] := by
          intro hc
          subst hc
          have := List.Forall₂.length_eq hfa
          simp at this
          exact hne (List.length_eq_zero.mp this.symm)
        have hck2 : (if rx then none else check_row_size rows2 w)
            = (none : Option PyError) := by
          cases rx with
          | true => simp
          | false =>
            simp only [Bool.false_eq_true, if_false]
            exact check_row_size_of_le rows2 w hne2 hlen
        simp only [TempyTable.populate, hmax, hck2]
        rw [mergeBody_fixed rx f nz w rows2 G hfa hgne []]
        simp

/-- Claim C1 witness: idempotence of a successful reconciliation of a
one-row two-column rectangular grid. -/
theorem populate_idempotent_rect_witness :
    TempyTable.populate
        { caption := none, headerParts := [], footerParts := [],
          body := some [[newCell (some 5), newCell (some 6)]] }
        (some [[some 5, some 6]]) true true true
      = ({ caption := none, headerParts := [], footerParts := [],
           body := some [[newCell (some 5), newCell (some 6)]] }, none) :=
  populate_idempotent_rect emptyTable
    { caption := none, headerParts := [], footerParts := [],
      body := some [[newCell (some 5), newCell (some 6)]] }
    [[some 5, some 6]] 2 true true true (by decide) (by decide) (by decide) (by decide)
